import Mathlib

/-!
Verification of the securestore key-management and vault layer.

The `SecretsManager` facade and `KeySource::extract_keys` are embedded
directly from `src/lib.rs`.  The `shared` module (`Vault`, `Keys`, the
per-entry authenticated encryption) and the `errors` module are not part
of the provided sources; their definitions below are modelled from the
specification and are marked as such in their doc comments.

Bytes are modelled as `Nat` with explicit `% 256` where the code works
on `u8`.  File-system access and the random source are modelled as an
explicit environment passed to each operation; the `rngStream` field is
the entropy the secure random source furnishes during a call, so two
calls made at different times are modelled by two environments with
different streams.
-/

namespace SecureStore

/-- `shared::KEY_LENGTH`: length in bytes of each symmetric key.
Modelled from the spec: the constant's value is given as 32 (`bytes[32]`). -/
def KEY_LENGTH : Nat := 32

/-- `shared::KEY_COUNT`: number of keys derived (encryption and hmac). -/
def KEY_COUNT : Nat := 2

/-- Modelled from the spec: the error taxonomy of the missing `errors`
module.  `src/lib.rs` names the variants `Io` and `MissingVaultIV`; the
spec supplies the remaining kinds (authentication failure, not found,
serialization). The `Io` variant is written `IoError` because the plain
source name is not usable here. -/
inductive Error where
  | IoError : Error
  | MissingVaultIV : Error
  | AuthenticationFailure : Error
  | NotFound : Error
  | Serialization : Error
deriving DecidableEq, Repr

/-- Result of running an operation: a value, a typed error (Rust
`Result::Err`), or a Rust panic (`expect`).  Panics are distinguished
from typed errors because `extract_keys` uses `expect` on the random
source and on PBKDF2. -/
inductive Outcome (α : Type) where
  | ok : α → Outcome α
  | err : Error → Outcome α
  | panic : String → Outcome α
deriving DecidableEq, Repr

/-- `shared::Keys`: the pair of symmetric keys held by a session
(encryption key and HMAC key, each `KEY_LENGTH` bytes). -/
structure Keys where
  encryption : List Nat
  hmac : List Nat
deriving DecidableEq, Repr

/-- Modelled from the spec: one authenticated-encryption record of the
missing `shared` module — nonce, ciphertext and MAC over (nonce ++
ciphertext). -/
structure VaultEntry where
  nonce : List Nat
  ciphertext : List Nat
  mac : List Nat
deriving DecidableEq, Repr

/-- Modelled from the spec: the `shared::Vault` container — an optional
salt (the field is called `iv` in `src/lib.rs`) and a mapping from
secret name to `VaultEntry`. -/
structure Vault where
  iv : Option (List Nat)
  entries : List (String × VaultEntry)
deriving DecidableEq, Repr

/-- The ambient world an operation runs in: whether the secure random
source works and the entropy it would furnish, whether the PBKDF2
provider works, the contents of flat binary key files, and the vault
files on disk (their structured serialization is an external
collaborator, so vault files are modelled as parsed `Vault` values). -/
structure Env where
  rngAvail : Bool
  rngStream : Nat → Nat
  kdfAvail : Bool
  fs : String → Option (List Nat)
  vaultFs : String → Option Vault

/-- `openssl::rand::rand_bytes` filling a buffer of `n` bytes, reading
the call's entropy stream starting at `off`; fails when the random
source is unavailable. -/
def randBytes (e : Env) (off n : Nat) : Option (List Nat) :=
  if e.rngAvail then some ((List.range n).map (fun i => e.rngStream (off + i) % 256)) else none

/-- Modelled from the spec: PBKDF2-class derivation — a fixed
deterministic function of the password and the salt producing
`KEY_COUNT * KEY_LENGTH` bytes (iteration count and hash primitive are
fixed constants folded into the function). -/
def pbkdf2 (password : String) (salt : List Nat) : List Nat :=
  (List.range (KEY_COUNT * KEY_LENGTH)).map (fun i =>
    (password.toList.foldl (fun a c => a * 31 + c.toNat) 7
      + salt.foldl (fun a b => a * 131 + b) 13 + i * 251) % 256)

/-- `KeySource` from `src/lib.rs`: where encryption/decryption keys are
loaded from.  Paths are modelled as strings. -/
inductive KeySource where
  | File : String → KeySource
  | Password : String → KeySource
  | Generate : KeySource
deriving DecidableEq, Repr

/-- `KeySource::extract_keys` from `src/lib.rs` (lines 76-118).
`Generate` draws the two keys from the random source, panicking via
`expect` on failure; `File` opens the file and performs two sequential
`read_exact` calls of `KEY_LENGTH` bytes, each I/O failure (missing
file or short read) becoming `Error::Io`; `Password` requires the
vault's `iv` (salt), derives `KEY_COUNT * KEY_LENGTH` bytes via PBKDF2
(panicking via `expect` on provider failure) and splits them into the
encryption key and the hmac key. -/
def KeySource.extract_keys (src : KeySource) (iv : Option (List Nat)) (e : Env) : Outcome Keys :=
  match src with
  | KeySource.Generate =>
    match randBytes e 0 KEY_LENGTH with
    | none => Outcome.panic "Key generation failure!"
    | some encryption_key =>
      match randBytes e KEY_LENGTH KEY_LENGTH with
      | none => Outcome.panic "Key generation failure!"
      | some hmac_key => Outcome.ok ⟨encryption_key, hmac_key⟩
  | KeySource.File path =>
    match e.fs path with
    | none => Outcome.err Error.IoError
    | some data =>
      if data.length < KEY_LENGTH then Outcome.err Error.IoError
      else if data.length < KEY_COUNT * KEY_LENGTH then Outcome.err Error.IoError
      else Outcome.ok ⟨data.take KEY_LENGTH, (data.drop KEY_LENGTH).take KEY_LENGTH⟩
  | KeySource.Password password =>
    match iv with
    | none => Outcome.err Error.MissingVaultIV
    | some salt =>
      if e.kdfAvail then
        let key_data := pbkdf2 password salt
        Outcome.ok ⟨key_data.take KEY_LENGTH, (key_data.drop KEY_LENGTH).take KEY_LENGTH⟩
      else Outcome.panic "PBKDF2 key generation failed!"

/-- Modelled from the spec: the keystream of the symmetric cipher the
vault uses per entry — a fixed function of the encryption key, the
nonce and the byte position, delegated to the external cryptography
provider.  Always below 256. -/
def keystream (key nonce : List Nat) (i : Nat) : Nat :=
  (key.foldl (fun a b => a * 131 + b) 7 + nonce.foldl (fun a b => a * 137 + b) 11 + i * 193) % 256

/-- Modelled from the spec: encrypting a byte sequence under the
encryption key and a nonce, starting at byte position `i`. -/
def encryptFrom (key nonce : List Nat) (i : Nat) : List Nat → List Nat
  | [] => []
  | b :: rest => (b + keystream key nonce i) % 256 :: encryptFrom key nonce (i + 1) rest

/-- Modelled from the spec: decrypting a byte sequence, inverse of
`encryptFrom` on byte values below 256. -/
def decryptFrom (key nonce : List Nat) (i : Nat) : List Nat → List Nat
  | [] => []
  | b :: rest => (b + (256 - keystream key nonce i)) % 256 :: decryptFrom key nonce (i + 1) rest

/-- Modelled from the spec: the message authentication code over a
message under the hmac key, delegated to the external cryptography
provider; idealized as collision-free, hence injective in the message
for a fixed key. -/
def macTag (key msg : List Nat) : List Nat :=
  key ++ msg

/-- Modelled from the spec: per-entry encryption — encrypt the
serialized plaintext under the encryption key with a fresh nonce, then
authenticate (nonce ++ ciphertext) under the hmac key
(encrypt-then-MAC). -/
def encryptEntry (keys : Keys) (nonce plaintext : List Nat) : VaultEntry :=
  let ciphertext := encryptFrom keys.encryption nonce 0 plaintext
  ⟨nonce, ciphertext, macTag keys.hmac (nonce ++ ciphertext)⟩

/-- Modelled from the spec: per-entry decryption — recompute the MAC
over the stored (nonce, ciphertext), compare with the stored tag, and
only on a match decrypt; on mismatch fail with the authentication
error without attempting decryption. -/
def decryptEntry (keys : Keys) (entry : VaultEntry) : Outcome (List Nat) :=
  if macTag keys.hmac (entry.nonce ++ entry.ciphertext) = entry.mac then
    Outcome.ok (decryptFrom keys.encryption entry.nonce 0 entry.ciphertext)
  else
    Outcome.err Error.AuthenticationFailure

/-- Lookup of a name in the vault's entry mapping. -/
def lookupEntry (name : String) : List (String × VaultEntry) → Option VaultEntry
  | [] => none
  | (k, v) :: rest => if k = name then some v else lookupEntry name rest

/-- Replace the entry stored under `name`, or append it. -/
def upsertEntry (name : String) (entry : VaultEntry) :
    List (String × VaultEntry) → List (String × VaultEntry)
  | [] => [(name, entry)]
  | (k, v) :: rest =>
    if k = name then (name, entry) :: rest else (k, v) :: upsertEntry name entry rest

/-- `Vault::from_file` (used by `SecretsManager::new` and `load` in
`src/lib.rs`).  Modelled from the spec: reads and parses the vault file
at `path`; a missing or unreadable file is an I/O error. -/
def Vault.from_file (e : Env) (path : String) : Outcome Vault :=
  match e.vaultFs path with
  | none => Outcome.err Error.IoError
  | some vault => Outcome.ok vault

/-- The `SecretsManager` of `src/lib.rs`: a vault, the path it was
opened from, and the session's keys. -/
structure SecretsManager where
  vault : Vault
  path : String
  keys : Keys
deriving DecidableEq, Repr

/-- `SecretsManager::new` from `src/lib.rs` (lines 35-44): reads the
vault from the file at `path` via `Vault::from_file`, then resolves the
key source against the loaded vault's `iv`. -/
def SecretsManager.new (path : String) (key_source : KeySource) (e : Env) :
    Outcome SecretsManager :=
  match Vault.from_file e path with
  | Outcome.ok vault =>
    match key_source.extract_keys vault.iv e with
    | Outcome.ok keys => Outcome.ok ⟨vault, path, keys⟩
    | Outcome.err er => Outcome.err er
    | Outcome.panic msg => Outcome.panic msg
  | Outcome.err er => Outcome.err er
  | Outcome.panic msg => Outcome.panic msg

/-- `SecretsManager::load` from `src/lib.rs` (lines 48-57): reads the
vault from the file at `path` via `Vault::from_file`, then resolves the
key source against the loaded vault's `iv`. -/
def SecretsManager.load (path : String) (key_source : KeySource) (e : Env) :
    Outcome SecretsManager :=
  match Vault.from_file e path with
  | Outcome.ok vault =>
    match key_source.extract_keys vault.iv e with
    | Outcome.ok keys => Outcome.ok ⟨vault, path, keys⟩
    | Outcome.err er => Outcome.err er
    | Outcome.panic msg => Outcome.panic msg
  | Outcome.err er => Outcome.err er
  | Outcome.panic msg => Outcome.panic msg

/-- Modelled from the spec: `SecretsManager::set` — serialize the value
(serialization is an external collaborator, so values are already byte
sequences), encrypt it under the session keys with a fresh nonce drawn
from the random source, and replace any existing entry under `name`. -/
def SecretsManager.set (sm : SecretsManager) (name : String) (value nonce : List Nat) :
    SecretsManager :=
  { sm with vault := ⟨sm.vault.iv, upsertEntry name (encryptEntry sm.keys nonce value) sm.vault.entries⟩ }

/-- Modelled from the spec: `SecretsManager::retrieve` — a missing name
is a not-found error, otherwise the entry is authenticated and
decrypted under the session keys. -/
def SecretsManager.retrieve (sm : SecretsManager) (name : String) : Outcome (List Nat) :=
  match lookupEntry name sm.vault.entries with
  | none => Outcome.err Error.NotFound
  | some entry => decryptEntry sm.keys entry

/-- `SecretsManager::save` via `Vault::save`.  Modelled from the spec:
serializes the held vault to the manager's path, overwriting the prior
contents. -/
def SecretsManager.save (sm : SecretsManager) (e : Env) : Env :=
  { e with vaultFs := fun p => if p = sm.path then some sm.vault else e.vaultFs p }

/-- `Keys::export` (called by `SecretsManager::export_keys`).  Modelled
from the spec: writes the key material to `path` in the flat binary
layout consumed by `KeySource::File` — encryption key bytes followed by
hmac key bytes. -/
def Keys.export (k : Keys) (path : String) (e : Env) : Env :=
  { e with fs := fun p => if p = path then some (k.encryption ++ k.hmac) else e.fs p }

/-- `SecretsManager::export_keys` from `src/lib.rs` (lines 70-72):
exports the session's keys via `Keys::export`. -/
def SecretsManager.export_keys (sm : SecretsManager) (path : String) (e : Env) : Env :=
  sm.keys.export path e

/-- Flip bit `j` of the byte at index `i` (a no-op when `i` is out of
range), used to state the tamper-detection property. -/
def flipBit (data : List Nat) (i j : Nat) : List Nat :=
  data.set i (data.getD i 0 ^^^ 2 ^ j)

/-- A vault entry with one bit of its ciphertext flipped. -/
def tamperCiphertext (entry : VaultEntry) (i j : Nat) : VaultEntry :=
  ⟨entry.nonce, flipBit entry.ciphertext i j, entry.mac⟩

/-- A vault entry with one bit of its MAC flipped. -/
def tamperMac (entry : VaultEntry) (i j : Nat) : VaultEntry :=
  ⟨entry.nonce, entry.ciphertext, flipBit entry.mac i j⟩

/-- The full round-trip scenario of the spec's testable property: open
the store at `path` with `src`, set `name` to `value`, save, reopen the
store with `src` (the reopening happens later, so the random source's
entropy is then `r₂`), and retrieve `name`. -/
def roundTrip (path : String) (src : KeySource) (name : String) (value nonce : List Nat)
    (e : Env) (r₂ : Nat → Nat) : Outcome (List Nat) :=
  match SecretsManager.new path src e with
  | Outcome.ok sm₁ =>
    let sm₂ := sm₁.set name value nonce
    let e' := sm₂.save e
    match SecretsManager.load path src { e' with rngStream := r₂ } with
    | Outcome.ok sm₃ => sm₃.retrieve name
    | Outcome.err er => Outcome.err er
    | Outcome.panic msg => Outcome.panic msg
  | Outcome.err er => Outcome.err er
  | Outcome.panic msg => Outcome.panic msg

end SecureStore

namespace SecureStore

/-- Characterization of `KeySource::File` resolution on a missing file. -/
theorem extract_file_missing (p : String) (iv : Option (List Nat)) (e : Env)
    (h : e.fs p = none) :
    KeySource.extract_keys (KeySource.File p) iv e = Outcome.err Error.IoError := by
  simp [KeySource.extract_keys, h]

/-- Characterization of `KeySource::File` resolution on a short file. -/
theorem extract_file_short (p : String) (iv : Option (List Nat)) (e : Env)
    (data : List Nat) (h : e.fs p = some data) (hlen : data.length < KEY_COUNT * KEY_LENGTH) :
    KeySource.extract_keys (KeySource.File p) iv e = Outcome.err Error.IoError := by
  rcases Nat.lt_or_ge data.length KEY_LENGTH with h₁ | h₁
  · simp [KeySource.extract_keys, h, h₁]
  · simp [KeySource.extract_keys, h, Nat.not_lt.mpr h₁, hlen]

/-- Characterization of `KeySource::File` resolution on a sufficiently
long file. -/
theorem extract_file_ok (p : String) (iv : Option (List Nat)) (e : Env)
    (data : List Nat) (h : e.fs p = some data) (hlen : KEY_COUNT * KEY_LENGTH ≤ data.length) :
    KeySource.extract_keys (KeySource.File p) iv e
      = Outcome.ok ⟨data.take KEY_LENGTH, (data.drop KEY_LENGTH).take KEY_LENGTH⟩ := by
  have h₁ : ¬ data.length < KEY_LENGTH := by
    simp [KEY_LENGTH, KEY_COUNT] at hlen ⊢; omega
  have h₂ : ¬ data.length < KEY_COUNT * KEY_LENGTH := by omega
  simp [KeySource.extract_keys, h, h₁, h₂]

/-- Characterization of `KeySource::Password` resolution against a
present salt with a working PBKDF2 provider. -/
theorem extract_password_ok (pw : String) (salt : List Nat) (e : Env)
    (h : e.kdfAvail = true) :
    KeySource.extract_keys (KeySource.Password pw) (some salt) e
      = Outcome.ok ⟨(pbkdf2 pw salt).take KEY_LENGTH,
                    ((pbkdf2 pw salt).drop KEY_LENGTH).take KEY_LENGTH⟩ := by
  simp [KeySource.extract_keys, h]

/-- Looking a name up after storing an entry under it finds that entry. -/
theorem lookup_upsert (name : String) (entry : VaultEntry) (l : List (String × VaultEntry)) :
    lookupEntry name (upsertEntry name entry l) = some entry := by
  induction l with
  | nil => simp [upsertEntry, lookupEntry]
  | cons kv rest ih =>
    obtain ⟨k, v⟩ := kv
    by_cases hk : k = name
    · simp [upsertEntry, lookupEntry, hk]
    · simp [upsertEntry, lookupEntry, hk, ih]

/-- The keystream is always a byte. -/
theorem keystream_lt (key nonce : List Nat) (i : Nat) : keystream key nonce i < 256 :=
  Nat.mod_lt _ (by omega)

/-- Decryption inverts encryption on byte-valued plaintexts. -/
theorem decrypt_encrypt (key nonce : List Nat) (pt : List Nat) (i : Nat)
    (h : ∀ b ∈ pt, b < 256) :
    decryptFrom key nonce i (encryptFrom key nonce i pt) = pt := by
  induction pt generalizing i with
  | nil => rfl
  | cons b rest ih =>
    have hb : b < 256 := h b (List.mem_cons_self b rest)
    have hrest : ∀ x ∈ rest, x < 256 := fun x hx => h x (List.mem_cons_of_mem b hx)
    have hs : keystream key nonce i < 256 := keystream_lt key nonce i
    simp only [encryptFrom, decryptFrom, ih (i + 1) hrest, List.cons.injEq, and_true]
    omega

/-- Flipping a bit of an in-range byte changes the byte sequence. -/
theorem flipBit_ne (l : List Nat) (i j : Nat) (h : i < l.length) : flipBit l i j ≠ l := by
  intro he
  have h1 : (flipBit l i j).getD i 0 = l.getD i 0 ^^^ 2 ^ j := by
    simp [flipBit, List.getD_eq_getElem?_getD, List.getElem?_set_self, h]
  have h2 : (flipBit l i j).getD i 0 = l.getD i 0 := by rw [he]
  have h4 : l.getD i 0 ^^^ 2 ^ j = l.getD i 0 := by rw [← h1, h2]
  have h5 : (2 : Nat) ^ j = 0 := by
    have h6 : l.getD i 0 ^^^ (l.getD i 0 ^^^ 2 ^ j) = l.getD i 0 ^^^ l.getD i 0 := by rw [h4]
    rwa [← Nat.xor_assoc, Nat.xor_self, Nat.zero_xor] at h6
  exact absurd h5 (by positivity)

/-- The idealized MAC is injective in the message for a fixed key. -/
theorem macTag_inj (key m₁ m₂ : List Nat) (h : macTag key m₁ = macTag key m₂) : m₁ = m₂ :=
  List.append_cancel_left h

/-- The round-trip scenario succeeds whenever the key source resolves
to the same keys in any environment with the same key files and the
same PBKDF2 availability (i.e. its result does not depend on the random
stream or the vault files). -/
theorem roundTrip_ok (path : String) (src : KeySource) (name : String)
    (value nonce salt : List Nat) (entries : List (String × VaultEntry))
    (e : Env) (r₂ : Nat → Nat) (K : Keys)
    (hv : ∀ b ∈ value, b < 256)
    (hvault : e.vaultFs path = some ⟨some salt, entries⟩)
    (hK : ∀ e' : Env, e'.fs = e.fs → e'.kdfAvail = e.kdfAvail →
      src.extract_keys (some salt) e' = Outcome.ok K) :
    roundTrip path src name value nonce e r₂ = Outcome.ok value := by
  have h1 : src.extract_keys (some salt) e = Outcome.ok K := hK e rfl rfl
  have hnew : SecretsManager.new path src e = Outcome.ok ⟨⟨some salt, entries⟩, path, K⟩ := by
    simp [SecretsManager.new, Vault.from_file, hvault, h1]
  have h2 : src.extract_keys (some salt)
      ⟨e.rngAvail, r₂, e.kdfAvail, e.fs,
       fun p => if p = path
         then some ⟨some salt, upsertEntry name (encryptEntry K nonce value) entries⟩
         else e.vaultFs p⟩ = Outcome.ok K := hK _ rfl rfl
  have hload : SecretsManager.load path src
      { (SecretsManager.set ⟨⟨some salt, entries⟩, path, K⟩ name value nonce).save e with
        rngStream := r₂ }
      = Outcome.ok ⟨⟨some salt, upsertEntry name (encryptEntry K nonce value) entries⟩, path, K⟩ := by
    simp [SecretsManager.load, Vault.from_file, SecretsManager.save, SecretsManager.set, h2]
  have hret : SecretsManager.retrieve
      ⟨⟨some salt, upsertEntry name (encryptEntry K nonce value) entries⟩, path, K⟩ name
      = Outcome.ok value := by
    simp [SecretsManager.retrieve, lookup_upsert, decryptEntry, encryptEntry]
    exact decrypt_encrypt K.encryption nonce value 0 hv
  simp [roundTrip, hnew, hload, hret]

/-- C4: resolving `KeySource::Password` against a vault whose salt is
absent fails with the missing-salt error (`Error::MissingVaultIV`), for
every password and every environment — in particular no default salt is
ever substituted. -/
theorem password_missing_salt_fails (password : String) (e : Env) :
    KeySource.extract_keys (KeySource.Password password) none e
      = Outcome.err Error.MissingVaultIV := rfl

theorem password_missing_salt_fails_witness :
    KeySource.extract_keys (KeySource.Password "mysecret") none
        ⟨true, fun _ => 0, true, fun _ => none, fun _ => none⟩
      = Outcome.err Error.MissingVaultIV :=
  password_missing_salt_fails "mysecret" ⟨true, fun _ => 0, true, fun _ => none, fun _ => none⟩

/-- C7: password-based key resolution is deterministic — resolving the
same password against the same present salt in any two environments
whose PBKDF2 provider works yields byte-identical key material; in
particular the result does not depend on the random source or the file
system. -/
theorem password_resolution_deterministic (password : String) (salt : List Nat)
    (e₁ e₂ : Env) (h₁ : e₁.kdfAvail = true) (h₂ : e₂.kdfAvail = true) :
    KeySource.extract_keys (KeySource.Password password) (some salt) e₁
      = KeySource.extract_keys (KeySource.Password password) (some salt) e₂ := by
  simp [KeySource.extract_keys, h₁, h₂]

theorem password_resolution_deterministic_witness :
    KeySource.extract_keys (KeySource.Password "samepw") (some [1, 2, 3])
        ⟨true, fun i => i, true, fun _ => none, fun _ => none⟩
      = KeySource.extract_keys (KeySource.Password "samepw") (some [1, 2, 3])
          ⟨false, fun i => i + 7, true, fun _ => some [], fun _ => none⟩ :=
  password_resolution_deterministic "samepw" [1, 2, 3] _ _ rfl rfl

/-- C6: resolving `KeySource::File` reads exactly `KEY_COUNT *
KEY_LENGTH` bytes sequentially — a missing or unreadable file is an I/O
error, a file holding fewer than `KEY_COUNT * KEY_LENGTH` bytes is an
I/O error (never zero-padded keys), and on success the first
`KEY_LENGTH` bytes become the encryption key and the next `KEY_LENGTH`
bytes the hmac key. -/
theorem file_source_reads_exact (p : String) (iv : Option (List Nat)) (e : Env) :
    (e.fs p = none →
      KeySource.extract_keys (KeySource.File p) iv e = Outcome.err Error.IoError) ∧
    (∀ data, e.fs p = some data → data.length < KEY_COUNT * KEY_LENGTH →
      KeySource.extract_keys (KeySource.File p) iv e = Outcome.err Error.IoError) ∧
    (∀ data, e.fs p = some data → KEY_COUNT * KEY_LENGTH ≤ data.length →
      KeySource.extract_keys (KeySource.File p) iv e
        = Outcome.ok ⟨data.take KEY_LENGTH, (data.drop KEY_LENGTH).take KEY_LENGTH⟩) :=
  ⟨fun h => extract_file_missing p iv e h,
   fun data h hlen => extract_file_short p iv e data h hlen,
   fun data h hlen => extract_file_ok p iv e data h hlen⟩

theorem file_source_reads_exact_witness :
    KeySource.extract_keys (KeySource.File "k") none
        ⟨true, fun _ => 0, true, fun _ => none, fun _ => none⟩
      = Outcome.err Error.IoError ∧
    KeySource.extract_keys (KeySource.File "k") none
        ⟨true, fun _ => 0, true, fun _ => some [9, 9, 9], fun _ => none⟩
      = Outcome.err Error.IoError ∧
    KeySource.extract_keys (KeySource.File "k") none
        ⟨true, fun _ => 0, true, fun _ => some (List.range 64), fun _ => none⟩
      = Outcome.ok ⟨(List.range 64).take KEY_LENGTH,
                    ((List.range 64).drop KEY_LENGTH).take KEY_LENGTH⟩ :=
  ⟨(file_source_reads_exact "k" none _).1 rfl,
   (file_source_reads_exact "k" none _).2.1 [9, 9, 9] rfl (by decide),
   (file_source_reads_exact "k" none _).2.2 (List.range 64) rfl (by simp [KEY_COUNT, KEY_LENGTH])⟩

/-- C10: resolving `KeySource::File` succeeds on any file holding at
least `KEY_COUNT * KEY_LENGTH` bytes; the keys come from the first
`KEY_COUNT * KEY_LENGTH` bytes alone, so any trailing bytes `extra`
are silently ignored and never detected as an error. -/
theorem file_source_ignores_trailing (p : String) (iv : Option (List Nat)) (e : Env)
    (data extra : List Nat) (hfs : e.fs p = some (data ++ extra))
    (hlen : data.length = KEY_COUNT * KEY_LENGTH) :
    KeySource.extract_keys (KeySource.File p) iv e
      = Outcome.ok ⟨data.take KEY_LENGTH, (data.drop KEY_LENGTH).take KEY_LENGTH⟩ := by
  have hk : KEY_LENGTH ≤ data.length := by simp [KEY_LENGTH, KEY_COUNT] at hlen ⊢; omega
  have htot : KEY_COUNT * KEY_LENGTH ≤ (data ++ extra).length := by
    simp [List.length_append, hlen]
  have hstep := extract_file_ok p iv e (data ++ extra) hfs htot
  rw [hstep]
  have htake : (data ++ extra).take KEY_LENGTH = data.take KEY_LENGTH :=
    List.take_append_of_le_length hk
  have hdrop : (data ++ extra).drop KEY_LENGTH = data.drop KEY_LENGTH ++ extra :=
    List.drop_append_of_le_length hk
  have hdroplen : KEY_LENGTH ≤ (data.drop KEY_LENGTH).length := by
    simp [List.length_drop, hlen, KEY_LENGTH, KEY_COUNT]
  have htake2 : ((data ++ extra).drop KEY_LENGTH).take KEY_LENGTH
      = (data.drop KEY_LENGTH).take KEY_LENGTH := by
    rw [hdrop]
    exact List.take_append_of_le_length hdroplen
  rw [htake, htake2]

theorem file_source_ignores_trailing_witness :
    KeySource.extract_keys (KeySource.File "k") none
        ⟨true, fun _ => 0, true, fun _ => some (List.range 64 ++ [7, 7, 7]), fun _ => none⟩
      = Outcome.ok ⟨(List.range 64).take KEY_LENGTH,
                    ((List.range 64).drop KEY_LENGTH).take KEY_LENGTH⟩ :=
  file_source_ignores_trailing "k" none _ (List.range 64) [7, 7, 7] rfl
    (by simp [KEY_COUNT, KEY_LENGTH])

/-- C9: `SecretsManager::new` and `SecretsManager::load` perform the
identical computation — they return equal results on every input; in
particular `new` fails with an I/O error when no vault file exists
(rather than creating one), and when a vault file exists and key
resolution succeeds, the manager `new` returns holds exactly the loaded
vault (never a fresh empty one). -/
theorem new_load_equivalent (path : String) (ks : KeySource) (e : Env) :
    SecretsManager.new path ks e = SecretsManager.load path ks e ∧
    (e.vaultFs path = none → SecretsManager.new path ks e = Outcome.err Error.IoError) ∧
    (∀ v k, e.vaultFs path = some v → ks.extract_keys v.iv e = Outcome.ok k →
      SecretsManager.new path ks e = Outcome.ok ⟨v, path, k⟩) := by
  refine ⟨rfl, ?_, ?_⟩
  · intro h
    simp [SecretsManager.new, Vault.from_file, h]
  · intro v k hv hk
    simp [SecretsManager.new, Vault.from_file, hv, hk]

theorem new_load_equivalent_witness :
    SecretsManager.new "v.db" (KeySource.Password "x")
        ⟨true, fun _ => 0, true, fun _ => none,
         fun p => if p = "v.db" then some ⟨some [5], []⟩ else none⟩
      = SecretsManager.load "v.db" (KeySource.Password "x")
          ⟨true, fun _ => 0, true, fun _ => none,
           fun p => if p = "v.db" then some ⟨some [5], []⟩ else none⟩ ∧
    SecretsManager.new "v.db" (KeySource.Password "x")
        ⟨true, fun _ => 0, true, fun _ => none, fun _ => none⟩
      = Outcome.err Error.IoError ∧
    SecretsManager.new "v.db" (KeySource.Password "x")
        ⟨true, fun _ => 0, true, fun _ => none,
         fun p => if p = "v.db" then some ⟨some [5], []⟩ else none⟩
      = Outcome.ok ⟨⟨some [5], []⟩, "v.db",
          ⟨(pbkdf2 "x" [5]).take KEY_LENGTH, ((pbkdf2 "x" [5]).drop KEY_LENGTH).take KEY_LENGTH⟩⟩ :=
  ⟨(new_load_equivalent "v.db" (KeySource.Password "x") _).1,
   (new_load_equivalent "v.db" (KeySource.Password "x") _).2.1 rfl,
   (new_load_equivalent "v.db" (KeySource.Password "x") _).2.2 ⟨some [5], []⟩
     ⟨(pbkdf2 "x" [5]).take KEY_LENGTH, ((pbkdf2 "x" [5]).drop KEY_LENGTH).take KEY_LENGTH⟩
     rfl (extract_password_ok "x" [5] _ rfl)⟩

/-- C8: `export_keys` followed by `KeySource::File` resolution on the
exported file reconstructs key material identical to the session's —
the exported file is the flat binary layout of the encryption key bytes
followed by the hmac key bytes. -/
theorem export_keys_file_roundtrip (sm : SecretsManager) (p : String)
    (iv : Option (List Nat)) (e : Env)
    (he : sm.keys.encryption.length = KEY_LENGTH) (hh : sm.keys.hmac.length = KEY_LENGTH) :
    KeySource.extract_keys (KeySource.File p) iv (sm.export_keys p e) = Outcome.ok sm.keys := by
  have hfs : (sm.export_keys p e).fs p = some (sm.keys.encryption ++ sm.keys.hmac) := by
    simp [SecretsManager.export_keys, Keys.export]
  have hlen : KEY_COUNT * KEY_LENGTH ≤ (sm.keys.encryption ++ sm.keys.hmac).length := by
    simp [List.length_append, he, hh, KEY_COUNT]
    omega
  have hstep := extract_file_ok p iv (sm.export_keys p e) _ hfs hlen
  rw [hstep]
  have htake : (sm.keys.encryption ++ sm.keys.hmac).take KEY_LENGTH = sm.keys.encryption := by
    rw [← he]
    exact List.take_left sm.keys.encryption sm.keys.hmac
  have hdrop : (sm.keys.encryption ++ sm.keys.hmac).drop KEY_LENGTH = sm.keys.hmac := by
    rw [← he]
    exact List.drop_left sm.keys.encryption sm.keys.hmac
  have htake2 : sm.keys.hmac.take KEY_LENGTH = sm.keys.hmac := by
    rw [← hh]
    simp
  rw [htake, hdrop, htake2]

theorem export_keys_file_roundtrip_witness :
    KeySource.extract_keys (KeySource.File "exported") none
        (SecretsManager.export_keys
          ⟨⟨none, []⟩, "v.db", ⟨List.replicate 32 1, List.replicate 32 2⟩⟩ "exported"
          ⟨true, fun _ => 0, true, fun _ => none, fun _ => none⟩)
      = Outcome.ok ⟨List.replicate 32 1, List.replicate 32 2⟩ :=
  export_keys_file_roundtrip ⟨⟨none, []⟩, "v.db", ⟨List.replicate 32 1, List.replicate 32 2⟩⟩
    "exported" none ⟨true, fun _ => 0, true, fun _ => none, fun _ => none⟩
    (by simp [KEY_LENGTH]) (by simp [KEY_LENGTH])

/-- C1 (divergence of `SecretsManager::new`, `src/lib.rs` lines 35-44):
contrary to its own doc comment ("Creates a new vault on-disk at path
`p` ... initialized with randomly-generated encryption keys"), `new`
evaluates `Vault::from_file` exactly as `load` does — at a path where a
vault already exists it succeeds with the loaded vault instead of
failing, and at a path with no vault it fails with an I/O error instead
of creating a fresh-salt vault. -/
theorem new_divergence_at_existing_vault :
    SecretsManager.new "v.db" (KeySource.Password "x")
        ⟨true, fun _ => 0, true, fun _ => none,
         fun p => if p = "v.db" then some ⟨some [5, 6], []⟩ else none⟩
      = Outcome.ok ⟨⟨some [5, 6], []⟩, "v.db",
          ⟨(pbkdf2 "x" [5, 6]).take KEY_LENGTH,
           ((pbkdf2 "x" [5, 6]).drop KEY_LENGTH).take KEY_LENGTH⟩⟩ ∧
    SecretsManager.new "fresh.db" KeySource.Generate
        ⟨true, fun _ => 0, true, fun _ => none, fun _ => none⟩
      = Outcome.err Error.IoError :=
  ⟨rfl, rfl⟩

/-- C5 counterexample: an RNG failure while resolving
`KeySource::Generate` is not surfaced as a typed error result — the
code's `expect` call panics, refuting the claim that every failure
is surfaced to the caller as a typed error and no operation panics. -/
theorem generate_rng_failure_panics :
    KeySource.extract_keys KeySource.Generate none
        ⟨false, fun _ => 0, true, fun _ => none, fun _ => none⟩
      = Outcome.panic "Key generation failure!" := rfl

/-- C5 (amended): every failure other than the two `expect` sites is a
typed error — when the random source and the PBKDF2 provider function,
key resolution always returns `ok` or a typed error (never a panic), as
does `retrieve` on any manager; RNG failure during `Generate` and
PBKDF2 failure during `Password` resolution instead panic. -/
theorem failures_typed_outside_expect (src : KeySource) (iv : Option (List Nat)) (e : Env)
    (sm : SecretsManager) (n : String)
    (hr : e.rngAvail = true) (hk : e.kdfAvail = true) :
    ((∃ k, src.extract_keys iv e = Outcome.ok k) ∨
     (∃ er, src.extract_keys iv e = Outcome.err er)) ∧
    ((∃ v, sm.retrieve n = Outcome.ok v) ∨ (∃ er, sm.retrieve n = Outcome.err er)) := by
  constructor
  · cases src with
    | Generate =>
      refine Or.inl ⟨⟨(List.range KEY_LENGTH).map (fun i => e.rngStream (0 + i) % 256),
        (List.range KEY_LENGTH).map (fun i => e.rngStream (KEY_LENGTH + i) % 256)⟩, ?_⟩
      simp [KeySource.extract_keys, randBytes, hr]
    | File p =>
      cases hfs : e.fs p with
      | none => exact Or.inr ⟨Error.IoError, extract_file_missing p iv e hfs⟩
      | some data =>
        rcases Nat.lt_or_ge data.length (KEY_COUNT * KEY_LENGTH) with hlen | hlen
        · exact Or.inr ⟨Error.IoError, extract_file_short p iv e data hfs hlen⟩
        · exact Or.inl ⟨_, extract_file_ok p iv e data hfs hlen⟩
    | Password pw =>
      cases iv with
      | none => exact Or.inr ⟨Error.MissingVaultIV, rfl⟩
      | some salt => exact Or.inl ⟨_, extract_password_ok pw salt e hk⟩
  · cases hl : lookupEntry n sm.vault.entries with
    | none =>
      refine Or.inr ⟨Error.NotFound, ?_⟩
      simp [SecretsManager.retrieve, hl]
    | some entry =>
      by_cases hm : macTag sm.keys.hmac (entry.nonce ++ entry.ciphertext) = entry.mac
      · refine Or.inl ⟨decryptFrom sm.keys.encryption entry.nonce 0 entry.ciphertext, ?_⟩
        simp [SecretsManager.retrieve, hl, decryptEntry, hm]
      · refine Or.inr ⟨Error.AuthenticationFailure, ?_⟩
        simp [SecretsManager.retrieve, hl, decryptEntry, hm]

theorem failures_typed_outside_expect_witness :
    (((∃ k, KeySource.extract_keys (KeySource.File "nofile") none
          ⟨true, fun _ => 0, true, fun _ => none, fun _ => none⟩ = Outcome.ok k) ∨
      (∃ er, KeySource.extract_keys (KeySource.File "nofile") none
          ⟨true, fun _ => 0, true, fun _ => none, fun _ => none⟩ = Outcome.err er)) ∧
     ((∃ v, SecretsManager.retrieve ⟨⟨none, []⟩, "v.db", ⟨[1], [2]⟩⟩ "foo" = Outcome.ok v) ∨
      (∃ er, SecretsManager.retrieve ⟨⟨none, []⟩, "v.db", ⟨[1], [2]⟩⟩ "foo" = Outcome.err er))) :=
  failures_typed_outside_expect (KeySource.File "nofile") none
    ⟨true, fun _ => 0, true, fun _ => none, fun _ => none⟩
    ⟨⟨none, []⟩, "v.db", ⟨[1], [2]⟩⟩ "foo" rfl rfl

/-- C2: every single-bit modification of a stored entry's ciphertext or
MAC makes `retrieve` fail with the authentication error — the MAC over
(nonce ++ ciphertext) is recomputed and compared before any decryption,
so tampered data never decrypts to wrong plaintext (the `ok` branch is
reached only after the comparison succeeds). -/
theorem tamper_fails_authentication (keys : Keys) (iv : Option (List Nat))
    (path name : String) (nonce pt : List Nat) (i j : Nat) :
    (i < (encryptEntry keys nonce pt).ciphertext.length →
      SecretsManager.retrieve
          ⟨⟨iv, [(name, tamperCiphertext (encryptEntry keys nonce pt) i j)]⟩, path, keys⟩ name
        = Outcome.err Error.AuthenticationFailure) ∧
    (i < (encryptEntry keys nonce pt).mac.length →
      SecretsManager.retrieve
          ⟨⟨iv, [(name, tamperMac (encryptEntry keys nonce pt) i j)]⟩, path, keys⟩ name
        = Outcome.err Error.AuthenticationFailure) := by
  constructor
  · intro hi
    have hi' : i < (encryptFrom keys.encryption nonce 0 pt).length := by
      simpa [encryptEntry] using hi
    have hne : macTag keys.hmac (nonce ++ flipBit (encryptFrom keys.encryption nonce 0 pt) i j)
        ≠ macTag keys.hmac (nonce ++ encryptFrom keys.encryption nonce 0 pt) := by
      intro hmeq
      have h1 := macTag_inj _ _ _ hmeq
      have h2 := List.append_cancel_left h1
      exact flipBit_ne _ i j hi' h2
    simp [SecretsManager.retrieve, lookupEntry, decryptEntry, tamperCiphertext,
      encryptEntry, hne]
  · intro hi
    have hi' : i < (macTag keys.hmac (nonce ++ encryptFrom keys.encryption nonce 0 pt)).length := by
      simpa [encryptEntry] using hi
    have hne : macTag keys.hmac (nonce ++ encryptFrom keys.encryption nonce 0 pt)
        ≠ flipBit (macTag keys.hmac (nonce ++ encryptFrom keys.encryption nonce 0 pt)) i j := by
      intro hmeq
      exact flipBit_ne _ i j hi' hmeq.symm
    simp [SecretsManager.retrieve, lookupEntry, decryptEntry, tamperMac,
      encryptEntry, hne]

/-- C3 counterexample: under `KeySource::Generate` the round trip
fails — reopening the store generates fresh random keys (the reopening
call sees different entropy), so `retrieve` after `set`/`save`/`load`
returns an authentication error instead of the stored value. -/
theorem roundtrip_generate_fails :
    roundTrip "v" KeySource.Generate "foo" [98, 97, 114] [9]
        ⟨true, fun i => i, true, fun _ => none,
         fun p => if p = "v" then some ⟨some [1, 2], []⟩ else none⟩
        (fun i => i + 13)
      ≠ Outcome.ok [98, 97, 114] ∧
    roundTrip "v" KeySource.Generate "foo" [98, 97, 114] [9]
        ⟨true, fun i => i, true, fun _ => none,
         fun p => if p = "v" then some ⟨some [1, 2], []⟩ else none⟩
        (fun i => i + 13)
      = Outcome.err Error.AuthenticationFailure :=
  ⟨by decide, by decide⟩

/-- C3 (amended): the set/save/load/retrieve round trip returns the
stored value under the two deterministic key sources — `Password` (with
the vault's salt present and a working PBKDF2 provider) and `File`
(with a key file of at least `KEY_COUNT * KEY_LENGTH` bytes) — for
every name, every byte-valued secret, every nonce and every entropy
stream at the reopening call; under `Generate` the reopened session's
keys are fresh, so the round trip holds only with the same keys (same
session, or exported keys reloaded via `File`). -/
theorem roundtrip_password_and_file (path name pw kp : String)
    (value nonce salt keyBytes : List Nat) (entries : List (String × VaultEntry))
    (e : Env) (r₂ : Nat → Nat)
    (hv : ∀ b ∈ value, b < 256)
    (hvault : e.vaultFs path = some ⟨some salt, entries⟩)
    (hkdf : e.kdfAvail = true)
    (hfs : e.fs kp = some keyBytes)
    (hkb : KEY_COUNT * KEY_LENGTH ≤ keyBytes.length) :
    roundTrip path (KeySource.Password pw) name value nonce e r₂ = Outcome.ok value ∧
    roundTrip path (KeySource.File kp) name value nonce e r₂ = Outcome.ok value := by
  constructor
  · refine roundTrip_ok path (KeySource.Password pw) name value nonce salt entries e r₂
      ⟨(pbkdf2 pw salt).take KEY_LENGTH, ((pbkdf2 pw salt).drop KEY_LENGTH).take KEY_LENGTH⟩
      hv hvault ?_
    intro e' hfs' hk'
    exact extract_password_ok pw salt e' (by rw [hk', hkdf])
  · refine roundTrip_ok path (KeySource.File kp) name value nonce salt entries e r₂
      ⟨keyBytes.take KEY_LENGTH, (keyBytes.drop KEY_LENGTH).take KEY_LENGTH⟩
      hv hvault ?_
    intro e' hfs' hk'
    refine extract_file_ok kp (some salt) e' keyBytes ?_ hkb
    rw [hfs']
    exact hfs

theorem roundtrip_password_and_file_witness :
    roundTrip "v" (KeySource.Password "mysecret") "foo" [98, 97, 114] [9]
        ⟨true, fun i => i, true, fun p => if p = "k" then some (List.range 64) else none,
         fun p => if p = "v" then some ⟨some [1, 2], []⟩ else none⟩
        (fun i => i + 13)
      = Outcome.ok [98, 97, 114] ∧
    roundTrip "v" (KeySource.File "k") "foo" [98, 97, 114] [9]
        ⟨true, fun i => i, true, fun p => if p = "k" then some (List.range 64) else none,
         fun p => if p = "v" then some ⟨some [1, 2], []⟩ else none⟩
        (fun i => i + 13)
      = Outcome.ok [98, 97, 114] :=
  roundtrip_password_and_file "v" "foo" "mysecret" "k" [98, 97, 114] [9] [1, 2]
    (List.range 64) []
    ⟨true, fun i => i, true, fun p => if p = "k" then some (List.range 64) else none,
     fun p => if p = "v" then some ⟨some [1, 2], []⟩ else none⟩
    (fun i => i + 13)
    (by decide) rfl rfl rfl (by simp [KEY_COUNT, KEY_LENGTH])

theorem tamper_fails_authentication_witness :
    SecretsManager.retrieve
        ⟨⟨none, [("n", tamperCiphertext (encryptEntry ⟨[1], [2]⟩ [3] [4, 5]) 0 0)]⟩,
         "v.db", ⟨[1], [2]⟩⟩ "n"
      = Outcome.err Error.AuthenticationFailure ∧
    SecretsManager.retrieve
        ⟨⟨none, [("n", tamperMac (encryptEntry ⟨[1], [2]⟩ [3] [4, 5]) 0 0)]⟩,
         "v.db", ⟨[1], [2]⟩⟩ "n"
      = Outcome.err Error.AuthenticationFailure :=
  ⟨(tamper_fails_authentication ⟨[1], [2]⟩ none "v.db" "n" [3] [4, 5] 0 0).1 (by decide),
   (tamper_fails_authentication ⟨[1], [2]⟩ none "v.db" "n" [3] [4, 5] 0 0).2 (by decide)⟩

end SecureStore
